import Mathlib

/-!
Verification development for the LINE/Dify webhook repository
(`api/line-webhook.ts` and its revisions).

The development shallow-embeds the handler's data flow in Lean:
JSON values are an inductive type, `JSON.parse` / `JSON.stringify` are
executable Lean functions, JavaScript coercion rules (truthiness,
template-literal display, `??`, `?.`, property access on `null`) are
explicit helper functions, and the fallible pieces of the code (property
access on `null`, calling `.replace` / `.map` on values that lack them)
return `Except`, mirroring thrown `TypeError`s.

Fidelity notes for the platform builtins (which are not part of the
repository's own source):
* JSON numbers are modelled as integers (`Int`): the claims under study
  only exercise integer literals.  Fractions and exponents are not
  modelled; leading zeros are accepted.
* JSON string escapes cover the common single-character escapes; `\u`
  escapes are not modelled.  The claims only exercise unescaped text.
* `String.length` counts characters, matching JS for all text appearing
  in the claims.
-/

/-- A JSON value, as produced by `JSON.parse`.  Object fields keep their
textual order; duplicate keys are resolved last-wins by `lookupJ`,
matching JavaScript object semantics. -/
inductive Json where
  | null
  | bool (b : Bool)
  | num (n : Int)
  | str (s : String)
  | arr (elems : List Json)
  | obj (fields : List (String × Json))

/-- Property lookup on a parsed JSON object: the last binding of a key
wins, as in a JavaScript object literal. -/
def lookupJ (fs : List (String × Json)) (name : String) : Option Json :=
  fs.foldl (fun acc kv => if kv.fst = name then some kv.snd else acc) none

/-- JavaScript truthiness of a JSON value. -/
def truthy : Json → Bool
  | Json.null => false
  | Json.bool b => b
  | Json.num n => n != 0
  | Json.str s => s != ""
  | Json.arr _ => true
  | Json.obj _ => true

/-- JavaScript truthiness, with `none` standing for `undefined`. -/
def truthyO : Option Json → Bool
  | none => false
  | some v => truthy v

/-- Optional-chaining property access `x?.name`: `undefined` and `null`
bases yield `undefined`; primitive bases have none of the properties the
handler reads. -/
def jsGetOpt : Option Json → String → Option Json
  | some (Json.obj fs), name => lookupJ fs name
  | _, _ => none

/-- Indexing `x[0]` as the handler applies it to `req.body?.events || []`:
arrays index, strings index characters, objects look up the key `"0"`,
other primitives give `undefined`. -/
def jsIndex0 : Option Json → Option Json
  | some (Json.arr l) => l.head?
  | some (Json.str s) => s.data.head?.map (fun c => Json.str (String.mk [c]))
  | some (Json.obj fs) => lookupJ fs "0"
  | _ => none

/-- The `.length` property: arrays and strings have one, other values
give `undefined`. -/
def jsLengthO : Option Json → Option Int
  | some (Json.arr l) => some l.length
  | some (Json.str s) => some s.length
  | _ => none

mutual

/-- Template-literal / `toString()` display of a JSON value, following
JavaScript: arrays comma-join their elements (rendering `null` elements
as the empty string), plain objects display as `[object Object]`. -/
def jsDisplay : Json → String
  | Json.null => "null"
  | Json.bool true => "true"
  | Json.bool false => "false"
  | Json.num n => toString n
  | Json.str s => s
  | Json.arr l => joinListSep "," l
  | Json.obj _ => "[object Object]"

/-- `Array.prototype.join` with a separator: `null` elements render as
the empty string. -/
def joinListSep : String → List Json → String
  | _, [] => ""
  | _, [x] => (match x with | Json.null => "" | v => jsDisplay v)
  | sep, x :: xs =>
    (match x with | Json.null => "" | v => jsDisplay v) ++ sep ++ joinListSep sep xs

end

/-- The nullish-coalescing step `x ?? ""` applied before display:
`undefined` and `null` become the empty string. -/
def coalesceEmpty : Option Json → Json
  | none => Json.str ""
  | some Json.null => Json.str ""
  | some v => v

/-- Escape one character for `JSON.stringify` string output. -/
def escapeChar (c : Char) : String :=
  if c = '"' then "\\\""
  else if c = '\\' then "\\\\"
  else if c = '\n' then "\\n"
  else if c = '\t' then "\\t"
  else if c = '\r' then "\\r"
  else String.mk [c]

/-- A JSON string literal: quote and escape. -/
def strLit (s : String) : String :=
  "\"" ++ String.join (s.data.map escapeChar) ++ "\""

mutual

/-- `JSON.stringify` on a parsed JSON value: compact output, no
whitespace, fields in stored order. -/
def jsonStringify : Json → String
  | Json.null => "null"
  | Json.bool true => "true"
  | Json.bool false => "false"
  | Json.num n => toString n
  | Json.str s => strLit s
  | Json.arr l => "[" ++ stringifyElems l ++ "]"
  | Json.obj fs => "\x7b" ++ stringifyFields fs ++ "\x7d"

def stringifyElems : List Json → String
  | [] => ""
  | [x] => jsonStringify x
  | x :: xs => jsonStringify x ++ "," ++ stringifyElems xs

def stringifyFields : List (String × Json) → String
  | [] => ""
  | [kv] => strLit kv.fst ++ ":" ++ jsonStringify kv.snd
  | kv :: xs => strLit kv.fst ++ ":" ++ jsonStringify kv.snd ++ "," ++ stringifyFields xs

end

example : jsonStringify (Json.obj [("events", Json.arr [])]) = "\x7b\"events\":[]\x7d" := by rfl
example : jsDisplay (Json.arr [Json.num 1, Json.obj []]) = "1,[object Object]" := by rfl

/-! ### `JSON.parse`

An executable recursive-descent parser for JSON text, used to embed the
`JSON.parse` calls of the handler.  `parseValue` consumes one JSON value
from a character list and returns it with the unconsumed remainder;
`jsonParse` additionally requires the remainder to be whitespace only,
exactly as `JSON.parse` rejects trailing data. -/

/-- JSON insignificant whitespace. -/
def isWsC (c : Char) : Bool :=
  c = ' ' || c = '\n' || c = '\t' || c = '\r'

/-- ASCII decimal digit test. -/
def isDigitC (c : Char) : Bool :=
  '0' ≤ c && c ≤ '9'

/-- Drop leading JSON whitespace. -/
def skipWs : List Char → List Char
  | [] => []
  | c :: cs => if isWsC c then skipWs cs else c :: cs

/-- Split a maximal run of leading digits from the rest. -/
def spanDigits : List Char → List Char × List Char
  | [] => ([], [])
  | c :: cs =>
    if isDigitC c then
      let p := spanDigits cs
      (c :: p.1, p.2)
    else ([], c :: cs)

/-- Numeric value of a digit run. -/
def digitsToNat : List Char → Nat :=
  fun ds => ds.foldl (fun acc c => 10 * acc + (c.toNat - '0'.toNat)) 0

/-- Decode one JSON string escape character (the common single-character
escapes). -/
def escChar (c : Char) : Option Char :=
  if c = '"' then some '"'
  else if c = '\\' then some '\\'
  else if c = '/' then some '/'
  else if c = 'n' then some '\n'
  else if c = 't' then some '\t'
  else if c = 'r' then some '\r'
  else if c = 'b' then some (Char.ofNat 8)
  else if c = 'f' then some (Char.ofNat 12)
  else none

/-- Consume an expected literal continuation (the tail of `true`,
`false` or `null`), returning the remainder. -/
def dropKeyword : List Char → List Char → Option (List Char)
  | [], rest => some rest
  | _ :: _, [] => none
  | k :: ks, c :: cs => if c = k then dropKeyword ks cs else none

/-- Parse the body of a JSON string literal after the opening quote, up
to and including the closing quote. -/
def parseStringBody : List Char → Option (List Char × List Char)
  | [] => none
  | c :: rest =>
    if c = '"' then some ([], rest)
    else if c = '\\' then
      match rest with
      | [] => none
      | e :: rest2 =>
        match escChar e with
        | some ec => (parseStringBody rest2).map (fun p => (ec :: p.1, p.2))
        | none => none
    else (parseStringBody rest).map (fun p => (c :: p.1, p.2))

mutual

/-- Parse one JSON value from the input, returning the value and the
unconsumed remainder.  The `Nat` argument is recursion fuel; the
top-level wrapper supplies enough for any input. -/
def parseValue : Nat → List Char → Option (Json × List Char)
  | 0, _ => none
  | f + 1, cs =>
    match skipWs cs with
    | [] => none
    | c :: rest =>
      if c = '\x7b' then
        match skipWs rest with
        | [] => none
        | c2 :: r2 =>
          if c2 = '\x7d' then some (Json.obj [], r2)
          else
            match parseMembers f rest with
            | some (ms, r3) => some (Json.obj ms, r3)
            | none => none
      else if c = '[' then
        match skipWs rest with
        | [] => none
        | c2 :: r2 =>
          if c2 = ']' then some (Json.arr [], r2)
          else
            match parseElements f rest with
            | some (vs, r3) => some (Json.arr vs, r3)
            | none => none
      else if c = '"' then
        match parseStringBody rest with
        | some (s, r2) => some (Json.str (String.mk s), r2)
        | none => none
      else if c = 't' then
        match dropKeyword ['r', 'u', 'e'] rest with
        | some r2 => some (Json.bool true, r2)
        | none => none
      else if c = 'f' then
        match dropKeyword ['a', 'l', 's', 'e'] rest with
        | some r2 => some (Json.bool false, r2)
        | none => none
      else if c = 'n' then
        match dropKeyword ['u', 'l', 'l'] rest with
        | some r2 => some (Json.null, r2)
        | none => none
      else if c = '-' then
        let p := spanDigits rest
        if p.1 = [] then none else some (Json.num (-(digitsToNat p.1 : Int)), p.2)
      else if isDigitC c then
        let p := spanDigits (c :: rest)
        some (Json.num (digitsToNat p.1 : Int), p.2)
      else none

/-- Parse the members of a JSON object after the opening brace (the
non-empty case), up to and including the closing brace. -/
def parseMembers : Nat → List Char → Option (List (String × Json) × List Char)
  | 0, _ => none
  | f + 1, cs =>
    match skipWs cs with
    | [] => none
    | c0 :: r0 =>
      if c0 = '"' then
        match parseStringBody r0 with
        | none => none
        | some (key, r1) =>
          match skipWs r1 with
          | [] => none
          | c1 :: r2 =>
            if c1 = ':' then
              match parseValue f r2 with
              | none => none
              | some (v, r3) =>
                match skipWs r3 with
                | [] => none
                | c3 :: r4 =>
                  if c3 = ',' then
                    match parseMembers f r4 with
                    | some (ms, r5) => some ((String.mk key, v) :: ms, r5)
                    | none => none
                  else if c3 = '\x7d' then some ([(String.mk key, v)], r4)
                  else none
            else none
      else none

/-- Parse the elements of a JSON array after the opening bracket (the
non-empty case), up to and including the closing bracket. -/
def parseElements : Nat → List Char → Option (List Json × List Char)
  | 0, _ => none
  | f + 1, cs =>
    match parseValue f cs with
    | none => none
    | some (v, r1) =>
      match skipWs r1 with
      | [] => none
      | c :: r2 =>
        if c = ',' then
          match parseElements f r2 with
          | some (vs, r3) => some (v :: vs, r3)
          | none => none
        else if c = ']' then some ([v], r2)
        else none

end

/-- `JSON.parse` on a character list: parse one value and require only
whitespace to remain. -/
def jsonParseChars (cs : List Char) : Option Json :=
  match parseValue (cs.length + 1) cs with
  | some (v, rest) => if skipWs rest = [] then some v else none
  | none => none

/-- `JSON.parse` on a string: succeeds with the parsed value, or fails
(`none` standing for a thrown `SyntaxError`). -/
def jsonParse (s : String) : Option Json :=
  jsonParseChars s.data

example : jsonParse "42" = some (Json.num 42) := by rfl
example : jsonParse "null" = some Json.null := by rfl
example : jsonParse "true" = some (Json.bool true) := by rfl
example : jsonParse "\"hi\"" = some (Json.str "hi") := by rfl
example : jsonParse "hello" = none := by rfl
example : jsonParse "" = none := by rfl
example : jsonParse "\x7b\"reply\":\"hi\"\x7d" = some (Json.obj [("reply", Json.str "hi")]) := by rfl
example : jsonParse "\x7b\"events\": []\x7d" = some (Json.obj [("events", Json.arr [])]) := by rfl
example :
    jsonParse "\x7b\"results\":[\x7b\"code\":\"X1\"\x7d]\x7d" =
      some (Json.obj [("results", Json.arr [Json.obj [("code", Json.str "X1")]])]) := by rfl
example : jsonParse "\x7b\"reply\":\"hi\"\x7d\x7b\"results\":[]\x7d" = none := by rfl
example : jsonParse " \x7b \"a\" : -5 \x7d " = some (Json.obj [("a", Json.num (-5))]) := by rfl

/-! ### Answer Parser

Embeds the answer-parsing block of `src/unnamed/part_000` (lines 48-64):

```ts
let parsed: any = {};
try {
    parsed = typeof difyJson?.answer === "string" ? JSON.parse(difyJson.answer) : difyJson?.answer;
} catch {
    parsed = { reply: difyJson?.answer };
}
const reply = (parsed?.reply ?? "").toString();
const enriched = parsed?.results || parsed?.data?.results || [];
```
-/

/-- The `parsed` value: a string-typed `answer` is `JSON.parse`d, with
the catch clause substituting `{ reply: difyJson?.answer }` when parsing
throws; a non-string `answer` (including `undefined`) passes through. -/
def parsedOf (difyJson : Json) : Option Json :=
  match jsGetOpt (some difyJson) "answer" with
  | some (Json.str s) =>
    match jsonParse s with
    | some v => some v
    | none => some (Json.obj [("reply", Json.str s)])
  | other => other

/-- The reply text `(parsed?.reply ?? "").toString()`. -/
def replyOf (difyJson : Json) : String :=
  jsDisplay (coalesceEmpty (jsGetOpt (parsedOf difyJson) "reply"))

/-- The result list `parsed?.results || parsed?.data?.results || []`. -/
def enrichedOf (difyJson : Json) : Json :=
  let a := jsGetOpt (parsedOf difyJson) "results"
  let b := jsGetOpt (jsGetOpt (parsedOf difyJson) "data") "results"
  if truthyO a then a.getD Json.null
  else if truthyO b then b.getD Json.null
  else Json.arr []

example : replyOf (Json.obj [("answer", Json.str "hello")]) = "hello" := by rfl
example : replyOf (Json.obj [("answer", Json.str "42")]) = "" := by rfl
example :
    replyOf (Json.obj [("answer", Json.str "\x7b\"reply\":\"hi\"\x7d")]) = "hi" := by rfl
example :
    enrichedOf (Json.obj [("answer", Json.str "\x7b\"results\":[1]\x7d")]) =
      Json.arr [Json.num 1] := by rfl
example : enrichedOf (Json.obj [("answer", Json.str "hello")]) = Json.arr [] := by rfl

/-! ### Carousel Renderer

Embeds `buildCarouselFromResults` of `src/unnamed/part_000`
(lines 116-198).  Rendering can throw a `TypeError` in JavaScript —
reading a property of a `null` item, or calling `.replace` on a
non-string `pageId`, or calling `.map` on a non-array — so the embedding
returns `Except String`, with `Except.error` standing for a throw. -/

/-- One rendered bubble: the five body text lines and the action URI of
the footer button (`uri` is `Json` because the source passes `item.url`
through unchanged whenever it is truthy with positive `.length`). -/
structure Bubble where
  qtyLine : String
  codeLine : String
  colorLine : String
  materialLine : String
  priceLine : String
  uri : Json

/-- The carousel document: `type: "carousel"` with the bubble list. -/
structure Carousel where
  contents : List Bubble

/-- `item.url && item.url.length > 0`. -/
def urlUsable (url : Option Json) : Bool :=
  truthyO url && (match jsLengthO url with | some n => decide (0 < n) | none => false)

/-- The action-URL resolution of lines 140-145:
`url` when truthy with positive length, else
`https://www.notion.so/<pageId without hyphens>` when `pageId` is
truthy (throwing when `pageId` has no `.replace`, i.e. is not a
string), else the bare `https://www.notion.so`. -/
def notionUrlOf (url pageId : Option Json) : Except String Json :=
  if urlUsable url then Except.ok (url.getD Json.null)
  else if truthyO pageId then
    match pageId with
    | some (Json.str s) =>
      Except.ok (Json.str ("https://www.notion.so/" ++ String.mk (s.data.filter (fun c => c != '-'))))
    | _ => Except.error "item.pageId.replace is not a function"
  else Except.ok (Json.str "https://www.notion.so")

/-- Render one result record into a bubble (the `.map` callback of
lines 123-195).  A `null` item throws on its first property read. -/
def renderItem (item : Json) : Except String Bubble :=
  match item with
  | Json.null => Except.error "Cannot read properties of null (reading typeOfFabric)"
  | _ =>
    let get := fun (name : String) =>
      match item with | Json.obj fs => lookupJ fs name | _ => none
    let material :=
      match get "typeOfFabric" with
      | some (Json.arr ts) => if 0 < ts.length then joinListSep ", " ts else ""
      | _ => ""
    let priceText :=
      match get "pricePerYard" with
      | some (Json.num n) => "THB " ++ toString n
      | _ => ""
    let qtyText :=
      match get "remainingYards" with
      | some (Json.num n) => toString n ++ " หลา"
      | _ => ""
    match notionUrlOf (get "url") (get "pageId") with
    | Except.error e => Except.error e
    | Except.ok u =>
      Except.ok
        { qtyLine := "จำนวนคงเหลือ: " ++ qtyText
        , codeLine := "Fabric Code: " ++ jsDisplay (coalesceEmpty (get "code"))
        , colorLine := "สีผ้า: " ++ jsDisplay (coalesceEmpty (get "colorName"))
        , materialLine := "เนื้อผ้า: " ++ material
        , priceLine := "ราคาต่อหลา: " ++ priceText
        , uri := u }

/-- Render a list of records in order, stopping at the first throw
(the sequencing of `Array.prototype.map`). -/
def renderAll : List Json → Except String (List Bubble)
  | [] => Except.ok []
  | j :: js =>
    match renderItem j with
    | Except.error e => Except.error e
    | Except.ok b =>
      match renderAll js with
      | Except.error e => Except.error e
      | Except.ok bs => Except.ok (b :: bs)

/-- `buildCarouselFromResults` (lines 116-123): the falsy / zero-length
guard returns the `null` sentinel (`Option.none`), otherwise the first
three items are rendered; `.slice(0,3).map(...)` on a non-array value
throws. -/
def buildCarouselFromResults (items : Option Json) : Except String (Option Carousel) :=
  if truthyO items = false then Except.ok none
  else if jsLengthO items = some 0 then Except.ok none
  else
    match items with
    | some (Json.arr l) =>
      match renderAll (l.take 3) with
      | Except.error e => Except.error e
      | Except.ok bs => Except.ok (some { contents := bs })
    | _ => Except.error "items.slice(0,3).map is not a function"

example : buildCarouselFromResults none = Except.ok none := by rfl
example : buildCarouselFromResults (some (Json.arr [])) = Except.ok none := by rfl
example :
    buildCarouselFromResults (some (Json.arr [Json.obj [("pageId", Json.num 1)]])) =
      Except.error "item.pageId.replace is not a function" := by rfl

/-! ### Reply Assembler and Request Handler

Embeds the orchestration of `src/unnamed/part_000` (the `handler`
function) and, for comparison across revisions, the message assembly of
the second draft in `src/api/line-webhook.ts` (lines 233-249), which
gates the text message on a non-empty reply. -/

/-- One outbound LINE message unit. -/
inductive LineMessage where
  | text (text : String)
  | flex (altText : String) (contents : Carousel)

/-- Message assembly of `src/unnamed/part_000` lines 59-76: the text
message is pushed unconditionally, the flex message only when the
carousel builder returned a document. -/
def assembleMessages (reply : String) (contents : Option Carousel) : List LineMessage :=
  LineMessage.text reply ::
    (match contents with
     | some c => [LineMessage.flex "ข้อมูลผ้า" c]
     | none => [])

/-- Message assembly of `src/api/line-webhook.ts` lines 233-249: the
text message is pushed only when `reply` is truthy (non-empty), the
flex message only when the carousel builder returned a document. -/
def assembleMessagesGated (reply : String) (contents : Option Carousel) : List LineMessage :=
  (if reply = "" then [] else [LineMessage.text reply]) ++
    (match contents with
     | some c => [LineMessage.flex "ข้อมูลผ้า" c]
     | none => [])

/-- The environment variables the handler reads; the empty string stands
for an unset variable (`process.env.X || ""`). -/
structure Env where
  lineChannelSecret : String
  difyApiKey : String
  lineChannelAccessToken : String

/-- The inbound HTTP request as the handler sees it: the method, the
`x-line-signature` header (absent coerced to `""` by the source), and
the framework-parsed JSON body (`none` standing for `undefined`). -/
structure Req where
  method : String
  xLineSignature : String
  body : Option Json

/-- One outbound network call made by the handler, with its payload. -/
inductive OutCall where
  | dify (query : String) (user : Json)
  | lineReply (replyToken : Json) (messages : List LineMessage)

/-- The observable outcome of one handler invocation: HTTP status, the
response text, and the outbound calls made, in order. -/
structure HandlerOutcome where
  status : Nat
  resBody : String
  calls : List OutCall

/-- `JSON.stringify(req.body || {})` — the digest input of line 11: the
framework-parsed body (or `{}` when falsy) re-serialized. -/
def rawBodyOf (req : Req) : String :=
  jsonStringify
    (match req.body with
     | none => Json.obj []
     | some v => if truthy v then v else Json.obj [])

/-- `(req.body?.events || [])[0]` (line 20). -/
def firstEventOf (req : Req) : Option Json :=
  let evs := jsGetOpt req.body "events"
  jsIndex0 (if truthyO evs then evs else some (Json.arr []))

/-- `event?.replyToken` (line 21). -/
def replyTokenOf (req : Req) : Option Json :=
  jsGetOpt (firstEventOf req) "replyToken"

/-- `event?.source?.userId || "anon"` (line 24). -/
def userIdOf (req : Req) : Json :=
  let u := jsGetOpt (jsGetOpt (firstEventOf req) "source") "userId"
  if truthyO u then u.getD Json.null else Json.str "anon"

/-- `event?.message?.text || ""` (line 25, before `.trim()`). -/
def rawTextOf (req : Req) : Json :=
  let t := jsGetOpt (jsGetOpt (firstEventOf req) "message") "text"
  if truthyO t then t.getD Json.null else Json.str ""

/-- `String.prototype.trim`: strip leading and trailing whitespace
(space, tab, newline, carriage return — the characters exercised by the
claims). -/
def jsTrim (s : String) : String :=
  String.mk ((skipWs (skipWs s.data).reverse).reverse)

/-- The handler of `src/unnamed/part_000`, as a pure function of the
request, the environment, the digest primitive `hmac` (standing for
`crypto.createHmac("sha256", secret).update(m).digest("base64")`), and
the responses of the two external collaborators (`difyJson` is the
parsed backend response body, `lineOk` / `lineErrText` the reply
transport's outcome).  The outer `try/catch` maps any thrown error to a
500 "Internal Error", preserving the outbound calls already made. -/
def handler (hmac : String → String → String) (env : Env) (req : Req)
    (difyJson : Json) (lineOk : Bool) (lineErrText : String) : HandlerOutcome :=
  if req.method ≠ "POST" then ⟨405, "Method Not Allowed", []⟩
  else if env.lineChannelSecret = "" then ⟨500, "Missing LINE_CHANNEL_SECRET", []⟩
  else if hmac env.lineChannelSecret (rawBodyOf req) ≠ req.xLineSignature then
    ⟨401, "Invalid signature", []⟩
  else if truthyO (replyTokenOf req) = false then ⟨200, "No event", []⟩
  else
    match rawTextOf req with
    | Json.str s =>
      let userText := jsTrim s
      if userText = "" then ⟨200, "Empty user text", []⟩
      else if env.difyApiKey = "" then ⟨500, "Missing DIFY_API_KEY", []⟩
      else
        let calls1 := [OutCall.dify userText (userIdOf req)]
        match buildCarouselFromResults (some (enrichedOf difyJson)) with
        | Except.error _ => ⟨500, "Internal Error", calls1⟩
        | Except.ok contents =>
          let messages := assembleMessages (replyOf difyJson) contents
          if env.lineChannelAccessToken = "" then
            ⟨500, "Missing LINE_CHANNEL_ACCESS_TOKEN", calls1⟩
          else
            let calls2 := calls1 ++
              [OutCall.lineReply ((replyTokenOf req).getD Json.null) messages]
            if lineOk then ⟨200, "OK", calls2⟩ else ⟨502, lineErrText, calls2⟩
    | _ => ⟨500, "Internal Error", []⟩

/-! ### Typedness predicates for result records

`ResultRecord` in the data model carries an optional string `detailUrl`
(`url`) and a string identifier (`pageId`).  `recordTyped` states that a
JSON value is an object whose `url` and `pageId` fields, when present,
are strings — the shape the renderer's URL fallback assumes. -/

/-- The field is absent or holds a string. -/
def strOrAbsent : Option Json → Bool
  | none => true
  | some (Json.str _) => true
  | _ => false

/-- A result record whose `url` and `pageId` fields are absent or
strings. -/
def recordTyped : Json → Bool
  | Json.obj fs => strOrAbsent (lookupJ fs "url") && strOrAbsent (lookupJ fs "pageId")
  | _ => false

/-- The `pricePerYard` field is absent or not a number. -/
def priceAbsentOrNonNum : Json → Bool
  | Json.obj fs =>
    (match lookupJ fs "pricePerYard" with
     | some (Json.num _) => false
     | _ => true)
  | _ => true

/-- The value is a JSON object. -/
def isObjJ : Json → Bool
  | Json.obj _ => true
  | _ => false

/-! ### Behaviour of the Answer Parser on failing and non-object answers -/

/-- When `JSON.parse` throws on the string answer, the catch clause
substitutes `{ reply: answer }`. -/
theorem answer_parse_failure_fallback (s : String) (hp : jsonParse s = none) :
    parsedOf (Json.obj [("answer", Json.str s)]) = some (Json.obj [("reply", Json.str s)]) := by
  have key : parsedOf (Json.obj [("answer", Json.str s)]) =
      (match jsonParse s with
       | some v => some v
       | none => some (Json.obj [("reply", Json.str s)])) := rfl
  rw [key, hp]

/-- When `JSON.parse` succeeds on the string answer, `parsed` is the
parsed value. -/
theorem answer_parse_success (s : String) (v : Json) (hp : jsonParse s = some v) :
    parsedOf (Json.obj [("answer", Json.str s)]) = some v := by
  have key : parsedOf (Json.obj [("answer", Json.str s)]) =
      (match jsonParse s with
       | some v => some v
       | none => some (Json.obj [("reply", Json.str s)])) := rfl
  rw [key, hp]

/-- Reply and result extraction after the catch clause: the whole raw
answer string becomes the reply, the result list is empty. -/
theorem fallback_reply_results (s : String) (hp : jsonParse s = none) :
    replyOf (Json.obj [("answer", Json.str s)]) = s ∧
    enrichedOf (Json.obj [("answer", Json.str s)]) = Json.arr [] := by
  have key := answer_parse_failure_fallback s hp
  constructor
  · unfold replyOf
    rw [key]
    rfl
  · unfold enrichedOf
    rw [key]
    rfl

/-- C3 (amended): for a backend answer that is a plain brace-free string
on which `JSON.parse` throws, the Answer Parser returns that exact
string as the reply text and an empty result list.  (The reply is a
`String` by construction — the "never null" half of the claim — and no
operation in the parsing block can throw.)  A brace-free string that is
itself valid JSON, such as `"42"`, does NOT reproduce the raw string;
see the counterexample. -/
theorem plain_nonjson_string_is_reply (s : String)
    (_hnb : s.data.all (fun c => (c != '\x7b') && (c != '\x7d')) = true)
    (hp : jsonParse s = none) :
    replyOf (Json.obj [("answer", Json.str s)]) = s ∧
    enrichedOf (Json.obj [("answer", Json.str s)]) = Json.arr [] :=
  fallback_reply_results s hp

theorem plain_nonjson_string_is_reply_witness :
    replyOf (Json.obj [("answer", Json.str "hello")]) = "hello" ∧
    enrichedOf (Json.obj [("answer", Json.str "hello")]) = Json.arr [] :=
  plain_nonjson_string_is_reply "hello" (by decide) (by rfl)

/-- Counterexample to C3 as stated: the string `"42"` contains no brace,
yet the parser returns the empty string as reply, not the raw string
`"42"` (because `JSON.parse("42")` succeeds with the number 42, which
has no `reply` property). -/
theorem plain_numeric_string_counterexample :
    "42".data.all (fun c => (c != '\x7b') && (c != '\x7d')) = true ∧
    replyOf (Json.obj [("answer", Json.str "42")]) = "" ∧
    ("" : String) ≠ "42" :=
  ⟨by decide, by rfl, by decide⟩

/-- C10 (amended): a string answer that parses as a JSON value that is
not an object yields the empty reply and an empty result list. -/
theorem nonobject_json_answer_empty_reply (s : String) (v : Json)
    (hp : jsonParse s = some v) (hv : isObjJ v = false) :
    replyOf (Json.obj [("answer", Json.str s)]) = "" ∧
    enrichedOf (Json.obj [("answer", Json.str s)]) = Json.arr [] := by
  have key := answer_parse_success s v hp
  constructor
  · unfold replyOf
    rw [key]
    match v, hv with
    | Json.null, _ => rfl
    | Json.bool b, _ => rfl
    | Json.num n, _ => rfl
    | Json.str t, _ => rfl
    | Json.arr l, _ => rfl
  · unfold enrichedOf
    rw [key]
    match v, hv with
    | Json.null, _ => rfl
    | Json.bool b, _ => rfl
    | Json.num n, _ => rfl
    | Json.str t, _ => rfl
    | Json.arr l, _ => rfl

theorem nonobject_json_answer_empty_reply_witness :
    replyOf (Json.obj [("answer", Json.str "42")]) = "" ∧
    enrichedOf (Json.obj [("answer", Json.str "42")]) = Json.arr [] :=
  nonobject_json_answer_empty_reply "42" (Json.num 42) (by rfl) (by rfl)

/-- Counterexample to C10 as stated: the string `{"reply":5}` parses as
an object that does not carry a STRING `reply` field, so it lies in the
claim's domain, yet the parser yields `"5"` (the stringified number),
not the empty string. -/
theorem object_answer_counterexample :
    jsonParse "\x7b\"reply\":5\x7d" = some (Json.obj [("reply", Json.num 5)]) ∧
    replyOf (Json.obj [("answer", Json.str "\x7b\"reply\":5\x7d")]) = "5" ∧
    ("5" : String) ≠ "" :=
  ⟨by rfl, by rfl, by decide⟩

/-! ### Renderer lemmas and claims about the Carousel Renderer -/

/-- A non-empty string has positive length. -/
theorem strLengthPos (s : String) (h : s ≠ "") : 0 < s.length := by
  cases s with
  | mk data =>
    cases data with
    | nil => exact absurd rfl h
    | cons c cs => simp [String.length]

/-- A string `url` field that is non-empty passes the
`item.url && item.url.length > 0` test. -/
theorem urlUsable_str (u : String) (h : u ≠ "") :
    urlUsable (some (Json.str u)) = true := by
  unfold urlUsable truthyO truthy jsLengthO
  have h1 : (u != "") = true := by simpa using h
  have h2 : 0 < u.length := strLengthPos u h
  simp [h1, h2]

/-- The URL fallback never throws when `pageId` is absent or a string. -/
theorem notionUrlOf_ok (url pid : Option Json) (h : strOrAbsent pid = true) :
    ∃ u, notionUrlOf url pid = Except.ok u := by
  unfold notionUrlOf
  by_cases hu : urlUsable url = true
  · rw [if_pos hu]
    exact ⟨_, rfl⟩
  · rw [if_neg hu]
    match pid, h with
    | none, _ => exact ⟨_, rfl⟩
    | some (Json.str s), _ =>
      by_cases ht : truthyO (some (Json.str s)) = true
      · rw [if_pos ht]
        exact ⟨_, rfl⟩
      · rw [if_neg ht]
        exact ⟨_, rfl⟩

/-- `renderItem` on an object whose `pageId` is absent or a string:
never throws, and every display field is the source's template text over
the record's fields. -/
theorem renderItem_obj (fs : List (String × Json))
    (hp : strOrAbsent (lookupJ fs "pageId") = true) :
    ∃ u, notionUrlOf (lookupJ fs "url") (lookupJ fs "pageId") = Except.ok u ∧
      renderItem (Json.obj fs) = Except.ok
        { qtyLine := "จำนวนคงเหลือ: " ++
            (match lookupJ fs "remainingYards" with
             | some (Json.num n) => toString n ++ " หลา"
             | _ => "")
        , codeLine := "Fabric Code: " ++ jsDisplay (coalesceEmpty (lookupJ fs "code"))
        , colorLine := "สีผ้า: " ++ jsDisplay (coalesceEmpty (lookupJ fs "colorName"))
        , materialLine := "เนื้อผ้า: " ++
            (match lookupJ fs "typeOfFabric" with
             | some (Json.arr ts) => if 0 < ts.length then joinListSep ", " ts else ""
             | _ => "")
        , priceLine := "ราคาต่อหลา: " ++
            (match lookupJ fs "pricePerYard" with
             | some (Json.num n) => "THB " ++ toString n
             | _ => "")
        , uri := u } := by
  obtain ⟨u, hu⟩ := notionUrlOf_ok (lookupJ fs "url") (lookupJ fs "pageId") hp
  refine ⟨u, hu, ?_⟩
  unfold renderItem
  dsimp only
  rw [hu]

/-- Rendering a list of records whose `url`/`pageId` fields are typed
succeeds and preserves the length. -/
theorem renderAll_ok (l : List Json) (h : ∀ j ∈ l, recordTyped j = true) :
    ∃ bs, renderAll l = Except.ok bs ∧ bs.length = l.length := by
  induction l with
  | nil => exact ⟨[], rfl, rfl⟩
  | cons j js ih =>
    have hj := h j (List.mem_cons_self j js)
    obtain ⟨bs, hbs, hlen⟩ := ih (fun x hx => h x (List.mem_cons_of_mem _ hx))
    cases j with
    | obj fs =>
      have hp : strOrAbsent (lookupJ fs "pageId") = true := by
        simp only [recordTyped, Bool.and_eq_true] at hj
        exact hj.2
      obtain ⟨u, _, hb⟩ := renderItem_obj fs hp
      obtain ⟨b, hb2⟩ : ∃ b, renderItem (Json.obj fs) = Except.ok b := ⟨_, hb⟩
      refine ⟨b :: bs, ?_, by simp [hlen]⟩
      unfold renderAll
      rw [hb2, hbs]
    | null => exact Bool.noConfusion hj
    | bool b => exact Bool.noConfusion hj
    | num n => exact Bool.noConfusion hj
    | str s => exact Bool.noConfusion hj
    | arr es => exact Bool.noConfusion hj

/-- `buildCarouselFromResults` on a non-empty list of typed records
returns a document holding the rendered first three records. -/
theorem build_ok_of_typed (l : List Json) (hne : l ≠ [])
    (h : ∀ j ∈ l, recordTyped j = true) :
    ∃ bs, renderAll (l.take 3) = Except.ok bs ∧ bs.length = min 3 l.length ∧
      buildCarouselFromResults (some (Json.arr l)) = Except.ok (some ⟨bs⟩) := by
  obtain ⟨bs, hbs, hlen⟩ := renderAll_ok (l.take 3)
    (fun j hj => h j (List.mem_of_mem_take hj))
  refine ⟨bs, hbs, by rw [hlen, List.length_take], ?_⟩
  unfold buildCarouselFromResults
  rw [if_neg ?_, if_neg ?_]
  · dsimp only
    rw [hbs]
  · intro h0
    unfold jsLengthO at h0
    have : (l.length : Int) = 0 := by simpa using h0
    exact hne (List.length_eq_zero.mp (by exact_mod_cast this))
  · simp [truthyO, truthy]

/-- C2 (code bug): line 11 computes the digest input as
`JSON.stringify(req.body || {})` — a re-serialization of the
framework-parsed body — not the raw wire bytes.  Concretely: the wire
body here is the 14-character text with a space after the colon; it
parses to the object whose re-serialization drops that space, so the
digest input differs from the wire bytes, and a request whose signature
header is the correct digest of the RAW bytes (exhibited with the digest
primitive that returns its message) is rejected with 401. -/
theorem signature_digest_uses_reserialized_body :
    jsonParse "\x7b\"events\": []\x7d" = some (Json.obj [("events", Json.arr [])]) ∧
    rawBodyOf { method := "POST", xLineSignature := "\x7b\"events\": []\x7d",
                body := some (Json.obj [("events", Json.arr [])]) } = "\x7b\"events\":[]\x7d" ∧
    ("\x7b\"events\":[]\x7d" : String) ≠ "\x7b\"events\": []\x7d" ∧
    handler (fun _ m => m) ⟨"s", "k", "t"⟩
      { method := "POST", xLineSignature := "\x7b\"events\": []\x7d",
        body := some (Json.obj [("events", Json.arr [])]) }
      Json.null true "" = ⟨401, "Invalid signature", []⟩ :=
  ⟨by rfl, by rfl, by decide, by rfl⟩

/-- C4: the Carousel Renderer returns the no-document sentinel on an
absent or empty result list; on a non-empty list of typed records it
returns a document whose cards are the renderings of the first three
records in given order, so the card count is `min(length, 3)`. -/
theorem carousel_card_count (l : List Json) (h : ∀ j ∈ l, recordTyped j = true) :
    buildCarouselFromResults none = Except.ok none ∧
    buildCarouselFromResults (some (Json.arr [])) = Except.ok none ∧
    (l ≠ [] →
      ∃ c bs, buildCarouselFromResults (some (Json.arr l)) = Except.ok (some c) ∧
        renderAll (l.take 3) = Except.ok bs ∧ c.contents = bs ∧
        c.contents.length = min l.length 3) := by
  refine ⟨rfl, rfl, fun hne => ?_⟩
  obtain ⟨bs, hbs, hlen, hbuild⟩ := build_ok_of_typed l hne h
  exact ⟨⟨bs⟩, bs, hbuild, hbs, rfl, by rw [hlen, Nat.min_comm]⟩

theorem carousel_card_count_witness :
    ∃ c bs,
      buildCarouselFromResults (some (Json.arr
        [Json.obj [("code", Json.str "A")], Json.obj [("code", Json.str "B")],
         Json.obj [("code", Json.str "C")], Json.obj [("code", Json.str "D")]])) =
        Except.ok (some c) ∧
      renderAll ([Json.obj [("code", Json.str "A")], Json.obj [("code", Json.str "B")],
         Json.obj [("code", Json.str "C")], Json.obj [("code", Json.str "D")]].take 3) =
        Except.ok bs ∧
      c.contents = bs ∧ c.contents.length = min 4 3 := by
  exact (carousel_card_count
    [Json.obj [("code", Json.str "A")], Json.obj [("code", Json.str "B")],
     Json.obj [("code", Json.str "C")], Json.obj [("code", Json.str "D")]]
    (by decide)).2.2 (List.cons_ne_nil _ _)

/-- C5 (amended): rendering never throws on lists of records whose
`url` and `pageId` fields are absent or strings, and a record whose
`pricePerYard` is absent or non-numeric renders an empty price text
(only the template prefix remains).  Rendering IS partial on wrongly
typed `pageId` fields; see the counterexample. -/
theorem renderer_total_on_typed_records (l : List Json)
    (h : ∀ j ∈ l, recordTyped j = true) :
    (∃ r, buildCarouselFromResults (some (Json.arr l)) = Except.ok r) ∧
    (∀ j ∈ l, priceAbsentOrNonNum j = true →
      ∃ b, renderItem j = Except.ok b ∧ b.priceLine = "ราคาต่อหลา: ") := by
  constructor
  · by_cases hl : l = []
    · subst hl
      exact ⟨none, rfl⟩
    · obtain ⟨bs, _, _, hbuild⟩ := build_ok_of_typed l hl h
      exact ⟨some ⟨bs⟩, hbuild⟩
  · intro j hjl hpn
    have hj := h j hjl
    cases j with
    | obj fs =>
      have hp : strOrAbsent (lookupJ fs "pageId") = true := by
        simp only [recordTyped, Bool.and_eq_true] at hj
        exact hj.2
      have hpn2 : (match lookupJ fs "pricePerYard" with
          | some (Json.num _) => false
          | _ => true) = true := hpn
      obtain ⟨u, _, hb⟩ := renderItem_obj fs hp
      refine ⟨_, hb, ?_⟩
      cases hpp : lookupJ fs "pricePerYard" with
      | none => rfl
      | some v =>
        rw [hpp] at hpn2
        cases v with
        | num n => exact Bool.noConfusion hpn2
        | null => rfl
        | bool b => rfl
        | str s => rfl
        | arr es => rfl
        | obj gs => rfl
    | null => exact Bool.noConfusion hj
    | bool b => exact Bool.noConfusion hj
    | num n => exact Bool.noConfusion hj
    | str s => exact Bool.noConfusion hj
    | arr es => exact Bool.noConfusion hj

theorem renderer_total_on_typed_records_witness :
    (∃ r, buildCarouselFromResults (some (Json.arr
        [Json.obj [("code", Json.str "A"), ("pricePerYard", Json.str "cheap")]])) =
      Except.ok r) ∧
    (∃ b, renderItem (Json.obj [("code", Json.str "A"), ("pricePerYard", Json.str "cheap")]) =
        Except.ok b ∧ b.priceLine = "ราคาต่อหลา: ") := by
  have h := renderer_total_on_typed_records
    [Json.obj [("code", Json.str "A"), ("pricePerYard", Json.str "cheap")]] (by decide)
  exact ⟨h.1, h.2 _ (List.mem_cons_self _ _) (by decide)⟩

/-- Counterexample to C5 as stated: a record whose `pageId` field holds
a number (a wrongly-typed field, squarely inside the claim's domain)
makes the renderer throw — `item.pageId.replace` is not a function — so
rendering is not total. -/
theorem renderer_throws_on_numeric_pageid :
    buildCarouselFromResults (some (Json.arr [Json.obj [("pageId", Json.num 1)]])) =
      Except.error "item.pageId.replace is not a function" := by rfl

/-- Injectivity of `Except.ok` at the type used by the URL fallback. -/
theorem exceptOkInj (x u : Json) (h : (Except.ok x : Except String Json) = Except.ok u) :
    x = u := by
  injection h

/-- A string with a non-empty prefix is non-empty. -/
theorem appendBaseNe (base rest : String) (hb : base ≠ "") : base ++ rest ≠ "" := by
  intro h
  have hlen := congrArg String.length h
  rw [String.length_append] at hlen
  have hbp := strLengthPos base hb
  simp only [String.length_empty] at hlen
  omega

/-- URL resolution, first stage: a non-empty string `url` wins. -/
theorem notionUrl_hit (u : String) (pid : Option Json) (hne : u ≠ "") :
    notionUrlOf (some (Json.str u)) pid = Except.ok (Json.str u) := by
  unfold notionUrlOf
  rw [if_pos (urlUsable_str u hne)]
  rfl

/-- URL resolution, second stage: with an unusable `url` and a non-empty
string `pageId`, the canonical lookup URL is composed from the
identifier with hyphens removed. -/
theorem notionUrl_pageid (url : Option Json) (p : String)
    (hq : urlUsable url = false) (hpne : p ≠ "") :
    notionUrlOf url (some (Json.str p)) =
      Except.ok (Json.str ("https://www.notion.so/" ++
        String.mk (p.data.filter (fun c => c != '-')))) := by
  unfold notionUrlOf
  rw [if_neg (by simp [hq]), if_pos (by simp [truthyO, truthy, hpne])]

/-- URL resolution, third stage: with an unusable `url` and a falsy
`pageId`, the generic fallback URL is used. -/
theorem notionUrl_fallback (url pid : Option Json)
    (hq : urlUsable url = false) (hpid : truthyO pid = false) :
    notionUrlOf url pid = Except.ok (Json.str "https://www.notion.so") := by
  unfold notionUrlOf
  rw [if_neg (by simp [hq]), if_neg (by simp [hpid])]

/-- C6: for a record whose `url` and `pageId` fields are absent or
strings, the rendered action URL follows the fallback order — explicit
non-empty `url` first, else the canonical lookup URL from the hyphen-
stripped `pageId`, else the generic fallback — and is always a
non-empty string. -/
theorem action_url_resolution (fs : List (String × Json))
    (hu : strOrAbsent (lookupJ fs "url") = true)
    (hp : strOrAbsent (lookupJ fs "pageId") = true) :
    ∃ b, renderItem (Json.obj fs) = Except.ok b ∧
      (∀ u, lookupJ fs "url" = some (Json.str u) → u ≠ "" → b.uri = Json.str u) ∧
      ((lookupJ fs "url" = none ∨ lookupJ fs "url" = some (Json.str "")) →
        ∀ p, lookupJ fs "pageId" = some (Json.str p) → p ≠ "" →
          b.uri = Json.str ("https://www.notion.so/" ++
            String.mk (p.data.filter (fun c => c != '-')))) ∧
      ((lookupJ fs "url" = none ∨ lookupJ fs "url" = some (Json.str "")) →
        (lookupJ fs "pageId" = none ∨ lookupJ fs "pageId" = some (Json.str "")) →
          b.uri = Json.str "https://www.notion.so") ∧
      (∃ s, b.uri = Json.str s ∧ s ≠ "") := by
  obtain ⟨u, hu', hb⟩ := renderItem_obj fs hp
  refine ⟨_, hb, ?_, ?_, ?_, ?_⟩
  · intro us helu hne
    rw [helu] at hu'
    exact (exceptOkInj _ _ ((notionUrl_hit us (lookupJ fs "pageId") hne).symm.trans hu')).symm
  · intro hurl p hpl hpne
    have hq : urlUsable (lookupJ fs "url") = false := by
      rcases hurl with h | h <;> rw [h] <;> rfl
    rw [hpl] at hu'
    exact (exceptOkInj _ _
      ((notionUrl_pageid (lookupJ fs "url") p hq hpne).symm.trans hu')).symm
  · intro hurl hpidc
    have hq : urlUsable (lookupJ fs "url") = false := by
      rcases hurl with h | h <;> rw [h] <;> rfl
    have hpid : truthyO (lookupJ fs "pageId") = false := by
      rcases hpidc with h | h <;> rw [h] <;> rfl
    exact (exceptOkInj _ _
      ((notionUrl_fallback (lookupJ fs "url") (lookupJ fs "pageId") hq hpid).symm.trans
        hu')).symm
  · have tail : urlUsable (lookupJ fs "url") = false → ∃ s, u = Json.str s ∧ s ≠ "" := by
      intro hq
      cases hpl : lookupJ fs "pageId" with
      | none =>
        rw [hpl] at hu'
        refine ⟨"https://www.notion.so", ?_, by decide⟩
        exact exceptOkInj _ _ (hu'.symm.trans (notionUrl_fallback (lookupJ fs "url") none hq rfl))
      | some pv =>
        rw [hpl] at hp
        cases pv with
        | str p =>
          by_cases hpe : p = ""
          · subst hpe
            rw [hpl] at hu'
            refine ⟨"https://www.notion.so", ?_, by decide⟩
            exact exceptOkInj _ _
              (hu'.symm.trans (notionUrl_fallback (lookupJ fs "url") (some (Json.str "")) hq rfl))
          · rw [hpl] at hu'
            refine ⟨"https://www.notion.so/" ++ String.mk (p.data.filter (fun c => c != '-')),
              ?_, appendBaseNe _ _ (by decide)⟩
            exact exceptOkInj _ _
              (hu'.symm.trans (notionUrl_pageid (lookupJ fs "url") p hq hpe))
        | null => exact Bool.noConfusion hp
        | bool b => exact Bool.noConfusion hp
        | num n => exact Bool.noConfusion hp
        | arr es => exact Bool.noConfusion hp
        | obj gs => exact Bool.noConfusion hp
    cases hul : lookupJ fs "url" with
    | none =>
      obtain ⟨s, hs, hsne⟩ := tail (by rw [hul]; rfl)
      exact ⟨s, hs, hsne⟩
    | some uv =>
      rw [hul] at hu
      cases uv with
      | str us =>
        by_cases hne : us = ""
        · subst hne
          obtain ⟨s, hs, hsne⟩ := tail (by rw [hul]; rfl)
          exact ⟨s, hs, hsne⟩
        · rw [hul] at hu'
          refine ⟨us, ?_, hne⟩
          exact exceptOkInj _ _
            (hu'.symm.trans (notionUrl_hit us (lookupJ fs "pageId") hne))
      | null => exact Bool.noConfusion hu
      | bool b => exact Bool.noConfusion hu
      | num n => exact Bool.noConfusion hu
      | arr es => exact Bool.noConfusion hu
      | obj gs => exact Bool.noConfusion hu

theorem action_url_resolution_witness :
    ∃ b, renderItem (Json.obj [("pageId", Json.str "abc-123-def")]) = Except.ok b ∧
      b.uri = Json.str "https://www.notion.so/abc123def" ∧
      ∃ s, b.uri = Json.str s ∧ s ≠ "" := by
  obtain ⟨b, hb, _, h2, _, h4⟩ :=
    action_url_resolution [("pageId", Json.str "abc-123-def")] (by rfl) (by rfl)
  refine ⟨b, hb, ?_, h4⟩
  have := h2 (Or.inl rfl) "abc-123-def" rfl (by decide)
  exact this

/-- A concrete carousel document for closed statements: the rendering
of the single record whose `code` is `X1`. -/
def demoCarousel : Carousel :=
  { contents := [
      { qtyLine := "จำนวนคงเหลือ: "
      , codeLine := "Fabric Code: X1"
      , colorLine := "สีผ้า: "
      , materialLine := "เนื้อผ้า: "
      , priceLine := "ราคาต่อหลา: "
      , uri := Json.str "https://www.notion.so" }] }

example :
    buildCarouselFromResults (some (Json.arr [Json.obj [("code", Json.str "X1")]])) =
      Except.ok (some demoCarousel) := by rfl

/-- C7 (amended): in `src/unnamed/part_000` the text unit is emitted
unconditionally and always first, and the carousel unit follows exactly
when the renderer produced a document; in the `src/api/line-webhook.ts`
revision (lines 233-249) the text unit is gated on a non-empty reply, so
an empty reply there yields a message list without any text unit. -/
theorem message_order_by_revision (reply : String) (contents : Option Carousel) :
    (assembleMessages reply contents).head? = some (LineMessage.text reply) ∧
    (contents = none → assembleMessages reply contents = [LineMessage.text reply]) ∧
    (∀ c, contents = some c →
      assembleMessages reply contents =
        [LineMessage.text reply, LineMessage.flex "ข้อมูลผ้า" c]) ∧
    (reply ≠ "" → assembleMessagesGated reply contents = assembleMessages reply contents) ∧
    (reply = "" → ∀ c, contents = some c →
      assembleMessagesGated reply contents = [LineMessage.flex "ข้อมูลผ้า" c]) := by
  refine ⟨rfl, ?_, ?_, ?_, ?_⟩
  · rintro rfl
    rfl
  · rintro c rfl
    rfl
  · intro h
    unfold assembleMessagesGated assembleMessages
    rw [if_neg h]
    rfl
  · rintro rfl c rfl
    rfl

theorem message_order_by_revision_witness :
    (assembleMessages "hi" (some demoCarousel)).head? = some (LineMessage.text "hi") ∧
    assembleMessages "hi" (some demoCarousel) =
      [LineMessage.text "hi", LineMessage.flex "ข้อมูลผ้า" demoCarousel] ∧
    assembleMessagesGated "" (some demoCarousel) =
      [LineMessage.flex "ข้อมูลผ้า" demoCarousel] :=
  ⟨(message_order_by_revision "hi" (some demoCarousel)).1,
   (message_order_by_revision "hi" (some demoCarousel)).2.2.1 demoCarousel rfl,
   (message_order_by_revision "" (some demoCarousel)).2.2.2.2 rfl demoCarousel rfl⟩

/-- Counterexample to C7 as stated: with an empty reply and a non-empty
carousel, the gated revision emits only the flex message — no text unit
comes first. -/
theorem gated_assembler_drops_empty_text :
    assembleMessagesGated "" (some demoCarousel) =
      [LineMessage.flex "ข้อมูลผ้า" demoCarousel] ∧
    assembleMessagesGated "" (some demoCarousel) ≠
      [LineMessage.text "", LineMessage.flex "ข้อมูลผ้า" demoCarousel] := by
  refine ⟨rfl, ?_⟩
  intro h
  exact absurd (congrArg List.length h) (by decide)

/-- C8 (amended): a missing signing secret or backend credential
short-circuits with HTTP 500 before any outbound call, but a missing
reply-transport credential is only detected AFTER the backend call has
already been made (and the backend endpoint URL is hard-coded in this
revision, not configuration). -/
theorem env_check_ordering (hmac : String → String → String) (env : Env) (req : Req)
    (difyJson : Json) (lineOk : Bool) (ltxt : String) :
    (req.method = "POST" → env.lineChannelSecret = "" →
      handler hmac env req difyJson lineOk ltxt = ⟨500, "Missing LINE_CHANNEL_SECRET", []⟩) ∧
    (∀ s, req.method = "POST" → env.lineChannelSecret ≠ "" →
      hmac env.lineChannelSecret (rawBodyOf req) = req.xLineSignature →
      truthyO (replyTokenOf req) = true →
      rawTextOf req = Json.str s → jsTrim s ≠ "" →
      env.difyApiKey = "" →
      handler hmac env req difyJson lineOk ltxt = ⟨500, "Missing DIFY_API_KEY", []⟩) ∧
    (∀ s r, req.method = "POST" → env.lineChannelSecret ≠ "" →
      hmac env.lineChannelSecret (rawBodyOf req) = req.xLineSignature →
      truthyO (replyTokenOf req) = true →
      rawTextOf req = Json.str s → jsTrim s ≠ "" →
      env.difyApiKey ≠ "" →
      buildCarouselFromResults (some (enrichedOf difyJson)) = Except.ok r →
      env.lineChannelAccessToken = "" →
      handler hmac env req difyJson lineOk ltxt =
        ⟨500, "Missing LINE_CHANNEL_ACCESS_TOKEN", [OutCall.dify (jsTrim s) (userIdOf req)]⟩) := by
  refine ⟨?_, ?_, ?_⟩
  · intro hm hs
    unfold handler
    rw [if_neg (fun h => h hm), if_pos hs]
  · intro s hm hs hsig htok htext hne hd
    unfold handler
    rw [if_neg (fun h => h hm), if_neg hs, if_neg (fun h => h hsig),
      if_neg (by simp [htok]), htext]
    dsimp only
    rw [if_neg hne, if_pos hd]
  · intro s r hm hs hsig htok htext hne hd hbuild haccess
    unfold handler
    rw [if_neg (fun h => h hm), if_neg hs, if_neg (fun h => h hsig),
      if_neg (by simp [htok]), htext]
    dsimp only
    rw [if_neg hne, if_neg hd, hbuild]
    dsimp only
    rw [if_pos haccess]

/-- Counterexample to C8 as stated: with only the reply-transport
credential missing, a valid signed POST drives the handler through the
backend call (one outbound call is made) before it fails with 500 — not
before any outbound network call. -/
theorem late_access_token_check_counterexample :
    handler (fun _ _ => "SIG") ⟨"s", "k", ""⟩
      { method := "POST", xLineSignature := "SIG",
        body := some (Json.obj [("events", Json.arr [Json.obj
          [("replyToken", Json.str "rt"),
           ("source", Json.obj [("userId", Json.str "u")]),
           ("message", Json.obj [("text", Json.str "hello")])]])]) }
      (Json.obj [("answer", Json.str "hi")]) true "" =
      ⟨500, "Missing LINE_CHANNEL_ACCESS_TOKEN", [OutCall.dify "hello" (Json.str "u")]⟩ ∧
    [OutCall.dify "hello" (Json.str "u")] ≠ ([] : List OutCall) :=
  ⟨by rfl, List.cons_ne_nil _ _⟩

/-- C9: for every POST request with the signing secret configured whose
signature header differs from the expected digest, the handler returns
401 and makes zero outbound calls. -/
theorem invalid_signature_rejected_no_calls (hmac : String → String → String)
    (env : Env) (req : Req) (difyJson : Json) (lineOk : Bool) (ltxt : String)
    (hm : req.method = "POST") (hs : env.lineChannelSecret ≠ "")
    (hsig : hmac env.lineChannelSecret (rawBodyOf req) ≠ req.xLineSignature) :
    handler hmac env req difyJson lineOk ltxt = ⟨401, "Invalid signature", []⟩ := by
  unfold handler
  rw [if_neg (fun h => h hm), if_neg hs, if_pos hsig]

theorem invalid_signature_rejected_no_calls_witness :
    handler (fun _ _ => "A") ⟨"s", "k", "t"⟩
      { method := "POST", xLineSignature := "B", body := some (Json.obj []) }
      Json.null true "" = ⟨401, "Invalid signature", []⟩ :=
  invalid_signature_rejected_no_calls _ _ _ _ _ _ rfl (by decide) (by decide)

/-! ### Prefix extension of the JSON parser

The concatenation of two JSON objects is not itself valid JSON: parsing
the concatenation consumes exactly the first object and leaves the
second as trailing data, which `jsonParse` rejects.  The lemmas below
prove this: appending extra text `t` to an input does not change what a
successful parse consumes, provided `t` does not begin with a digit
(otherwise it could extend a trailing number literal).  A block starting
with an opening brace satisfies this. -/

/-- The appended text does not start with a digit. -/
def noDigitHead : List Char → Prop
  | [] => True
  | c :: _ => isDigitC c = false

/-- Unfolding equation for `skipWs` on a cons cell. -/
theorem skipWs_cons (x : Char) (xs : List Char) :
    skipWs (x :: xs) = if isWsC x then skipWs xs else x :: xs := rfl

/-- Unfolding equation for `spanDigits` on a cons cell. -/
theorem spanDigits_cons (x : Char) (xs : List Char) :
    spanDigits (x :: xs) =
      if isDigitC x then (x :: (spanDigits xs).1, (spanDigits xs).2)
      else ([], x :: xs) := rfl

/-- Appending text after whitespace skipping stopped at a character
does not move the stop point. -/
theorem skipWs_append_cons {a : List Char} {c : Char} {r : List Char} (t : List Char)
    (h : skipWs a = c :: r) : skipWs (a ++ t) = c :: (r ++ t) := by
  induction a with
  | nil => exact absurd h (by simp [skipWs])
  | cons x xs ih =>
    rw [List.cons_append, skipWs_cons]
    rw [skipWs_cons] at h
    by_cases hw : isWsC x = true
    · rw [if_pos hw] at h ⊢
      exact ih h
    · rw [if_neg hw] at h ⊢
      injection h with h1 h2
      rw [h1, h2]

/-- Whitespace skipping that consumed everything continues into the
appended text. -/
theorem skipWs_append_nil {a : List Char} (t : List Char)
    (h : skipWs a = []) : skipWs (a ++ t) = skipWs t := by
  induction a with
  | nil => rfl
  | cons x xs ih =>
    rw [List.cons_append, skipWs_cons]
    rw [skipWs_cons] at h
    by_cases hw : isWsC x = true
    · rw [if_pos hw] at h ⊢
      exact ih h
    · rw [if_neg hw] at h
      exact absurd h (by simp)

/-- A digit run that stopped at a character is unchanged by appending. -/
theorem spanDigits_append_cons {a d : List Char} {c : Char} {r : List Char} (t : List Char)
    (h : spanDigits a = (d, c :: r)) :
    spanDigits (a ++ t) = (d, c :: (r ++ t)) := by
  induction a generalizing d with
  | nil =>
    unfold spanDigits at h
    exact absurd (congrArg Prod.snd h) (by simp)
  | cons x xs ih =>
    rw [List.cons_append, spanDigits_cons]
    rw [spanDigits_cons] at h
    by_cases hx : isDigitC x = true
    · rw [if_pos hx] at h ⊢
      have h1 : x :: (spanDigits xs).1 = d := congrArg Prod.fst h
      have h2 : (spanDigits xs).2 = c :: r := congrArg Prod.snd h
      have hxs : spanDigits xs = ((spanDigits xs).1, c :: r) := by
        rw [← h2]
      rw [ih hxs, ← h1]
    · rw [if_neg hx] at h ⊢
      injection h with h1 h2
      injection h2 with h3 h4
      rw [← h1, h3, h4]

/-- A digit run that consumed everything stops at the head of the
appended text when that head is not a digit. -/
theorem spanDigits_append_nil {a d : List Char} (t : List Char) (hnd : noDigitHead t)
    (h : spanDigits a = (d, [])) : spanDigits (a ++ t) = (d, t) := by
  induction a generalizing d with
  | nil =>
    unfold spanDigits at h
    injection h with h1 h2
    rw [List.nil_append, ← h1]
    cases t with
    | nil => rfl
    | cons c cs =>
      rw [spanDigits_cons, if_neg (by simp [noDigitHead] at hnd; simp [hnd])]
  | cons x xs ih =>
    rw [List.cons_append, spanDigits_cons]
    rw [spanDigits_cons] at h
    by_cases hx : isDigitC x = true
    · rw [if_pos hx] at h ⊢
      have h1 : x :: (spanDigits xs).1 = d := congrArg Prod.fst h
      have h2 : (spanDigits xs).2 = [] := congrArg Prod.snd h
      have hxs : spanDigits xs = ((spanDigits xs).1, []) := by
        rw [← h2]
      rw [ih hxs, ← h1]
    · rw [if_neg hx] at h
      exact absurd (congrArg Prod.snd h) (by simp)

/-- Unfolding equation for `parseStringBody` on a cons cell. -/
theorem parseStringBody_cons (c : Char) (rest : List Char) :
    parseStringBody (c :: rest) =
      (if c = '"' then some ([], rest)
       else if c = '\\' then
         match rest with
         | [] => none
         | e :: rest2 =>
           match escChar e with
           | some ec => (parseStringBody rest2).map (fun p => (ec :: p.1, p.2))
           | none => none
       else (parseStringBody rest).map (fun p => (c :: p.1, p.2))) := by
  conv_lhs => unfold parseStringBody

/-- A successfully parsed string literal is unchanged by appending text
after the input: the closing quote delimits it. -/
theorem psb_append (t : List Char) :
    ∀ (n : Nat) (a : List Char), a.length ≤ n →
      ∀ s r, parseStringBody a = some (s, r) →
        parseStringBody (a ++ t) = some (s, r ++ t) := by
  intro n
  induction n with
  | zero =>
    intro a ha s r h
    have : a = [] := List.length_eq_zero.mp (Nat.le_zero.mp ha)
    subst this
    exact absurd h (by simp [parseStringBody])
  | succ n ih =>
    intro a ha s r h
    cases a with
    | nil => exact absurd h (by simp [parseStringBody])
    | cons c rest =>
      rw [List.cons_append, parseStringBody_cons]
      rw [parseStringBody_cons] at h
      by_cases hq : c = '"'
      · rw [if_pos hq] at h ⊢
        injection h with h1
        injection h1 with h2 h3
        rw [← h2, ← h3]
      · rw [if_neg hq] at h ⊢
        by_cases hb : c = '\\'
        · rw [if_pos hb] at h ⊢
          cases rest with
          | nil => exact absurd h (by simp)
          | cons e rest2 =>
            rw [List.cons_append]
            dsimp only at h ⊢
            generalize hesc : escChar e = esc at h ⊢
            cases esc with
            | none => exact absurd h (by simp)
            | some ec =>
              dsimp only at h ⊢
              generalize hps : parseStringBody rest2 = pbr at h
              cases pbr with
              | none => exact Option.noConfusion h
              | some p =>
                obtain ⟨s2, r2⟩ := p
                simp only [Option.map] at h
                injection h with h1
                injection h1 with h2 h3
                have hlen : rest2.length ≤ n := by
                  simp only [List.length_cons] at ha
                  omega
                rw [ih rest2 hlen s2 r2 hps]
                simp only [Option.map]
                rw [← h2, ← h3]
        · rw [if_neg hb] at h ⊢
          generalize hps : parseStringBody rest = pbr at h
          cases pbr with
          | none => exact Option.noConfusion h
          | some p =>
            obtain ⟨s2, r2⟩ := p
            simp only [Option.map] at h
            injection h with h1
            injection h1 with h2 h3
            have hlen : rest.length ≤ n := by
              simp only [List.length_cons] at ha
              omega
            rw [ih rest hlen s2 r2 hps]
            simp only [Option.map]
            rw [← h2, ← h3]

/-- Corollary of `psb_append` with the length bound instantiated. -/
theorem psb_append' (t a s r : List Char) (h : parseStringBody a = some (s, r)) :
    parseStringBody (a ++ t) = some (s, r ++ t) :=
  psb_append t a.length a (Nat.le_refl _) s r h

/-- Appending text does not disturb a successful keyword match. -/
theorem dropKeyword_append (ks : List Char) :
    ∀ a r t, dropKeyword ks a = some r → dropKeyword ks (a ++ t) = some (r ++ t) := by
  induction ks with
  | nil =>
    intro a r t h
    injection h with h1
    rw [← h1]
    rfl
  | cons k ks ih =>
    intro a r t h
    cases a with
    | nil => exact Option.noConfusion h
    | cons c cs =>
      rw [List.cons_append]
      unfold dropKeyword at h ⊢
      by_cases hc : c = k
      · rw [if_pos hc] at h ⊢
        exact ih cs r t h
      · rw [if_neg hc] at h
        exact Option.noConfusion h

/-- Prefix extension for the three parsing functions: a successful
parse of `cs` consumes the same prefix when text `t` (not starting with
a digit) is appended, at any fuel at least as large. -/
theorem parse_ext (t : List Char) (hnd : noDigitHead t) :
    ∀ f : Nat,
      (∀ g cs v rest, f ≤ g → parseValue f cs = some (v, rest) →
        parseValue g (cs ++ t) = some (v, rest ++ t)) ∧
      (∀ g cs ms rest, f ≤ g → parseMembers f cs = some (ms, rest) →
        parseMembers g (cs ++ t) = some (ms, rest ++ t)) ∧
      (∀ g cs vs rest, f ≤ g → parseElements f cs = some (vs, rest) →
        parseElements g (cs ++ t) = some (vs, rest ++ t)) := by
  intro f
  induction f with
  | zero =>
    refine ⟨?_, ?_, ?_⟩ <;> intro g cs x rest hfg h <;> exact Option.noConfusion h
  | succ f ih =>
    obtain ⟨ihV, ihM, ihE⟩ := ih
    refine ⟨?_, ?_, ?_⟩
    · -- parseValue
      intro g cs v rest hfg h
      cases g with
      | zero => exact absurd hfg (by omega)
      | succ g' =>
        have hfg' : f ≤ g' := by omega
        unfold parseValue at h ⊢
        generalize hws : skipWs cs = ws at h
        cases ws with
        | nil => exact Option.noConfusion h
        | cons c r0 =>
          rw [skipWs_append_cons t hws]
          dsimp only at h ⊢
          by_cases h1 : c = '\x7b'
          · rw [if_pos h1] at h ⊢
            generalize hws2 : skipWs r0 = ws2 at h
            cases ws2 with
            | nil => exact Option.noConfusion h
            | cons c2 r2 =>
              rw [skipWs_append_cons t hws2]
              dsimp only at h ⊢
              by_cases h2 : c2 = '\x7d'
              · rw [if_pos h2] at h ⊢
                injection h with h3
                injection h3 with hv hr
                rw [← hv, ← hr]
              · rw [if_neg h2] at h ⊢
                generalize hpm : parseMembers f r0 = pm at h
                cases pm with
                | none => exact Option.noConfusion h
                | some p =>
                  obtain ⟨ms, r3⟩ := p
                  dsimp only at h
                  injection h with h3
                  injection h3 with hv hr
                  rw [ihM g' r0 ms r3 hfg' hpm]
                  dsimp only
                  rw [← hv, ← hr]
          · rw [if_neg h1] at h ⊢
            by_cases h2 : c = '['
            · rw [if_pos h2] at h ⊢
              generalize hws2 : skipWs r0 = ws2 at h
              cases ws2 with
              | nil => exact Option.noConfusion h
              | cons c2 r2 =>
                rw [skipWs_append_cons t hws2]
                dsimp only at h ⊢
                by_cases h3 : c2 = ']'
                · rw [if_pos h3] at h ⊢
                  injection h with h4
                  injection h4 with hv hr
                  rw [← hv, ← hr]
                · rw [if_neg h3] at h ⊢
                  generalize hpe : parseElements f r0 = pe at h
                  cases pe with
                  | none => exact Option.noConfusion h
                  | some p =>
                    obtain ⟨vs, r3⟩ := p
                    dsimp only at h
                    injection h with h4
                    injection h4 with hv hr
                    rw [ihE g' r0 vs r3 hfg' hpe]
                    dsimp only
                    rw [← hv, ← hr]
            · rw [if_neg h2] at h ⊢
              by_cases h3 : c = '"'
              · rw [if_pos h3] at h ⊢
                generalize hps : parseStringBody r0 = ps at h
                cases ps with
                | none => exact Option.noConfusion h
                | some p =>
                  obtain ⟨s2, r2⟩ := p
                  dsimp only at h
                  injection h with h4
                  injection h4 with hv hr
                  rw [psb_append' t r0 s2 r2 hps]
                  dsimp only
                  rw [← hv, ← hr]
              · rw [if_neg h3] at h ⊢
                by_cases h4 : c = 't'
                · rw [if_pos h4] at h ⊢
                  generalize hk : dropKeyword ['r', 'u', 'e'] r0 = dk at h
                  cases dk with
                  | none => exact Option.noConfusion h
                  | some r2 =>
                    dsimp only at h
                    injection h with h5
                    injection h5 with hv hr
                    rw [dropKeyword_append _ r0 r2 t hk]
                    dsimp only
                    rw [← hv, ← hr]
                · rw [if_neg h4] at h ⊢
                  by_cases h5 : c = 'f'
                  · rw [if_pos h5] at h ⊢
                    generalize hk : dropKeyword ['a', 'l', 's', 'e'] r0 = dk at h
                    cases dk with
                    | none => exact Option.noConfusion h
                    | some r2 =>
                      dsimp only at h
                      injection h with h6
                      injection h6 with hv hr
                      rw [dropKeyword_append _ r0 r2 t hk]
                      dsimp only
                      rw [← hv, ← hr]
                  · rw [if_neg h5] at h ⊢
                    by_cases h6 : c = 'n'
                    · rw [if_pos h6] at h ⊢
                      generalize hk : dropKeyword ['u', 'l', 'l'] r0 = dk at h
                      cases dk with
                      | none => exact Option.noConfusion h
                      | some r2 =>
                        dsimp only at h
                        injection h with h7
                        injection h7 with hv hr
                        rw [dropKeyword_append _ r0 r2 t hk]
                        dsimp only
                        rw [← hv, ← hr]
                    · rw [if_neg h6] at h ⊢
                      by_cases h7 : c = '-'
                      · rw [if_pos h7] at h ⊢
                        rcases hsd : spanDigits r0 with ⟨ds, r2⟩
                        rw [hsd] at h
                        dsimp only at h
                        by_cases hds : ds = []
                        · rw [if_pos hds] at h
                          exact Option.noConfusion h
                        · rw [if_neg hds] at h
                          injection h with h8
                          injection h8 with hv hr
                          cases r2 with
                          | nil =>
                            rw [spanDigits_append_nil t hnd hsd]
                            dsimp only
                            rw [if_neg hds, ← hv, ← hr]
                            rfl
                          | cons c3 r3 =>
                            rw [spanDigits_append_cons t hsd]
                            dsimp only
                            rw [if_neg hds, ← hv, ← hr]
                            rfl
                      · rw [if_neg h7] at h ⊢
                        by_cases h8 : isDigitC c = true
                        · rw [if_pos h8] at h ⊢
                          rcases hsd : spanDigits (c :: r0) with ⟨ds, r2⟩
                          rw [hsd] at h
                          dsimp only at h
                          injection h with h9
                          injection h9 with hv hr
                          cases r2 with
                          | nil =>
                            have hq := spanDigits_append_nil t hnd hsd
                            rw [List.cons_append] at hq
                            rw [hq]
                            dsimp only
                            rw [← hv, ← hr]
                            rfl
                          | cons c3 r3 =>
                            have hq := spanDigits_append_cons t hsd
                            rw [List.cons_append] at hq
                            rw [hq]
                            dsimp only
                            rw [← hv, ← hr]
                            rfl
                        · rw [if_neg h8] at h
                          exact Option.noConfusion h
    · -- parseMembers
      intro g cs ms rest hfg h
      cases g with
      | zero => exact absurd hfg (by omega)
      | succ g' =>
        have hfg' : f ≤ g' := by omega
        unfold parseMembers at h ⊢
        generalize hws : skipWs cs = ws at h
        cases ws with
        | nil => exact Option.noConfusion h
        | cons c0 r0 =>
          rw [skipWs_append_cons t hws]
          dsimp only at h ⊢
          by_cases h1 : c0 = '"'
          · rw [if_pos h1] at h ⊢
            generalize hps : parseStringBody r0 = ps at h
            cases ps with
            | none => exact Option.noConfusion h
            | some p =>
              obtain ⟨key, r1⟩ := p
              dsimp only at h
              rw [psb_append' t r0 key r1 hps]
              dsimp only
              generalize hws1 : skipWs r1 = ws1 at h
              cases ws1 with
              | nil => exact Option.noConfusion h
              | cons c1 r2 =>
                rw [skipWs_append_cons t hws1]
                dsimp only at h ⊢
                by_cases hc1 : c1 = ':'
                · rw [if_pos hc1] at h ⊢
                  generalize hpv : parseValue f r2 = pv at h
                  cases pv with
                  | none => exact Option.noConfusion h
                  | some p =>
                    obtain ⟨v, r3⟩ := p
                    dsimp only at h
                    rw [ihV g' r2 v r3 hfg' hpv]
                    dsimp only
                    generalize hws3 : skipWs r3 = ws3 at h
                    cases ws3 with
                    | nil => exact Option.noConfusion h
                    | cons c3 r4 =>
                      rw [skipWs_append_cons t hws3]
                      dsimp only at h ⊢
                      by_cases hc3 : c3 = ','
                      · rw [if_pos hc3] at h ⊢
                        generalize hpm : parseMembers f r4 = pm at h
                        cases pm with
                        | none => exact Option.noConfusion h
                        | some p =>
                          obtain ⟨ms2, r5⟩ := p
                          dsimp only at h
                          injection h with hh
                          injection hh with hml hrl
                          rw [ihM g' r4 ms2 r5 hfg' hpm]
                          dsimp only
                          rw [← hml, ← hrl]
                      · rw [if_neg hc3] at h ⊢
                        by_cases hc4 : c3 = '\x7d'
                        · rw [if_pos hc4] at h ⊢
                          injection h with hh
                          injection hh with hml hrl
                          rw [← hml, ← hrl]
                        · rw [if_neg hc4] at h
                          exact Option.noConfusion h
                · rw [if_neg hc1] at h
                  exact Option.noConfusion h
          · rw [if_neg h1] at h
            exact Option.noConfusion h
    · -- parseElements
      intro g cs vs rest hfg h
      cases g with
      | zero => exact absurd hfg (by omega)
      | succ g' =>
        have hfg' : f ≤ g' := by omega
        unfold parseElements at h ⊢
        generalize hpv : parseValue f cs = pv at h
        cases pv with
        | none => exact Option.noConfusion h
        | some p =>
          obtain ⟨v, r1⟩ := p
          dsimp only at h
          rw [ihV g' cs v r1 hfg' hpv]
          dsimp only
          generalize hws : skipWs r1 = ws at h
          cases ws with
          | nil => exact Option.noConfusion h
          | cons c r2 =>
            rw [skipWs_append_cons t hws]
            dsimp only at h ⊢
            by_cases hc : c = ','
            · rw [if_pos hc] at h ⊢
              generalize hpe : parseElements f r2 = pe at h
              cases pe with
              | none => exact Option.noConfusion h
              | some p =>
                obtain ⟨vs2, r3⟩ := p
                dsimp only at h
                injection h with hh
                injection hh with hvl hrl
                rw [ihE g' r2 vs2 r3 hfg' hpe]
                dsimp only
                rw [← hvl, ← hrl]
            · rw [if_neg hc] at h ⊢
              by_cases hc2 : c = ']'
              · rw [if_pos hc2] at h ⊢
                injection h with hh
                injection hh with hvl hrl
                rw [← hvl, ← hrl]
              · rw [if_neg hc2] at h
                exact Option.noConfusion h

/-- Parsing the concatenation of a complete JSON text and a further
block that starts with an opening brace fails: the first value is
consumed and the brace is non-whitespace trailing data. -/
theorem jsonParseChars_concat_none (s1 s2 : List Char) (v1 : Json) (r : List Char)
    (h1 : jsonParseChars s1 = some v1) (hs2 : s2 = '\x7b' :: r) :
    jsonParseChars (s1 ++ s2) = none := by
  unfold jsonParseChars at h1 ⊢
  generalize hpv : parseValue (s1.length + 1) s1 = pv at h1
  cases pv with
  | none => exact Option.noConfusion h1
  | some p =>
    obtain ⟨v, rest⟩ := p
    dsimp only at h1
    by_cases hws : skipWs rest = []
    · have hnd : noDigitHead s2 := by
        rw [hs2]
        show isDigitC '\x7b' = false
        decide
      have hle : s1.length + 1 ≤ (s1 ++ s2).length + 1 := by
        rw [List.length_append]
        omega
      have hext := (parse_ext s2 hnd (s1.length + 1)).1 ((s1 ++ s2).length + 1)
        s1 v rest hle hpv
      rw [hext]
      have htail : skipWs (rest ++ s2) ≠ [] := by
        rw [skipWs_append_nil s2 hws, hs2, skipWs_cons,
          if_neg (by decide : ¬ isWsC '\x7b' = true)]
        exact List.cons_ne_nil _ _
      dsimp only
      rw [if_neg htail]
    · rw [if_neg hws] at h1
      exact Option.noConfusion h1

/-- String-level corollary: a complete JSON text followed by a block
starting with `\x7b` is not valid JSON. -/
theorem jsonParse_concat_none (s1 s2 : String) (v1 : Json) (r : List Char)
    (h1 : jsonParse s1 = some v1) (hs2 : s2.data = '\x7b' :: r) :
    jsonParse (s1 ++ s2) = none := by
  unfold jsonParse at h1 ⊢
  rw [String.data_append]
  exact jsonParseChars_concat_none s1.data s2.data v1 r h1 hs2

/-- C1 (amended): a backend answer string that is two concatenated
well-formed JSON objects — one with an array `results` field, the other
with a string `reply` field, in either order — does NOT have its fields
extracted per block.  `JSON.parse` throws on the concatenation, so the
catch clause makes the ENTIRE raw string the reply text and the result
list comes out empty. -/
theorem concat_json_answer_falls_back (s1 s2 : String)
    (o1 o2 : List (String × Json)) (r : List Char)
    (h1 : jsonParse s1 = some (Json.obj o1))
    (_h2 : jsonParse s2 = some (Json.obj o2))
    (hb : s2.data = '\x7b' :: r)
    (_hfields :
      ((∃ rs, lookupJ o1 "results" = some (Json.arr rs)) ∧
       (∃ rp, lookupJ o2 "reply" = some (Json.str rp))) ∨
      ((∃ rp, lookupJ o1 "reply" = some (Json.str rp)) ∧
       (∃ rs, lookupJ o2 "results" = some (Json.arr rs)))) :
    replyOf (Json.obj [("answer", Json.str (s1 ++ s2))]) = s1 ++ s2 ∧
    enrichedOf (Json.obj [("answer", Json.str (s1 ++ s2))]) = Json.arr [] :=
  fallback_reply_results (s1 ++ s2) (jsonParse_concat_none s1 s2 (Json.obj o1) r h1 hb)

theorem concat_json_answer_falls_back_witness :
    replyOf (Json.obj [("answer", Json.str
        ("\x7b\"results\":[\x7b\"code\":\"X1\"\x7d]\x7d" ++ "\x7b\"reply\":\"hi\"\x7d"))]) =
      "\x7b\"results\":[\x7b\"code\":\"X1\"\x7d]\x7d" ++ "\x7b\"reply\":\"hi\"\x7d" ∧
    enrichedOf (Json.obj [("answer", Json.str
        ("\x7b\"results\":[\x7b\"code\":\"X1\"\x7d]\x7d" ++ "\x7b\"reply\":\"hi\"\x7d"))]) =
      Json.arr [] :=
  concat_json_answer_falls_back
    "\x7b\"results\":[\x7b\"code\":\"X1\"\x7d]\x7d" "\x7b\"reply\":\"hi\"\x7d"
    [("results", Json.arr [Json.obj [("code", Json.str "X1")]])]
    [("reply", Json.str "hi")]
    ("\"reply\":\"hi\"\x7d".data)
    (by rfl) (by rfl) (by rfl)
    (Or.inl ⟨⟨[Json.obj [("code", Json.str "X1")]], by rfl⟩, ⟨"hi", by rfl⟩⟩)

/-- Counterexample to C1 as stated: for the concatenation of a
results-bearing object and a reply-bearing object, the claim predicts
reply text `"hi"` and a one-record result list; the parser actually
returns the whole raw string (which is not `"hi"`) and an empty result
list. -/
theorem concat_json_answer_counterexample :
    replyOf (Json.obj [("answer",
        Json.str "\x7b\"results\":[\x7b\"code\":\"X1\"\x7d]\x7d\x7b\"reply\":\"hi\"\x7d")]) =
      "\x7b\"results\":[\x7b\"code\":\"X1\"\x7d]\x7d\x7b\"reply\":\"hi\"\x7d" ∧
    ("\x7b\"results\":[\x7b\"code\":\"X1\"\x7d]\x7d\x7b\"reply\":\"hi\"\x7d" : String) ≠ "hi" ∧
    enrichedOf (Json.obj [("answer",
        Json.str "\x7b\"results\":[\x7b\"code\":\"X1\"\x7d]\x7d\x7b\"reply\":\"hi\"\x7d")]) =
      Json.arr [] :=
  ⟨by rfl, by decide, by rfl⟩

theorem env_check_ordering_witness :
    handler (fun _ _ => "SIG") ⟨"s", "k", ""⟩
      { method := "POST", xLineSignature := "SIG",
        body := some (Json.obj [("events", Json.arr [Json.obj
          [("replyToken", Json.str "rt"),
           ("source", Json.obj [("userId", Json.str "u")]),
           ("message", Json.obj [("text", Json.str "hello")])]])]) }
      (Json.obj [("answer", Json.str "hi")]) true "" =
      ⟨500, "Missing LINE_CHANNEL_ACCESS_TOKEN", [OutCall.dify "hello" (Json.str "u")]⟩ :=
  (env_check_ordering (fun _ _ => "SIG") ⟨"s", "k", ""⟩
      { method := "POST", xLineSignature := "SIG",
        body := some (Json.obj [("events", Json.arr [Json.obj
          [("replyToken", Json.str "rt"),
           ("source", Json.obj [("userId", Json.str "u")]),
           ("message", Json.obj [("text", Json.str "hello")])]])]) }
      (Json.obj [("answer", Json.str "hi")]) true "").2.2
    "hello" none rfl (by decide) (by rfl) (by rfl) (by rfl) (by decide) (by decide)
    (by rfl) rfl
